import Mathlib

/-!
A shallow embedding of the cycle-tracking logic of this repository
(`src/app/src/cycle-tracking/`): the temperature conversions of `utils.ts`,
the chart-data derivation of `CycleChartPage.tsx`, and the day/cycle
bookkeeping and CSV-import helpers of `operations.ts`.

JavaScript numbers are modelled as rationals (`ℚ`), and timestamps
(`Date.getTime()` milliseconds) as integers (`ℤ`).  Database rows are
modelled as Lean structures restricted to the fields the verified logic
reads, and Prisma `orderBy` clauses as a stable merge sort on the stored
list of rows.
-/

namespace CyclePath

/-- Temperature unit; matches the Prisma enum mirrored in `utils.ts` and
`operations.ts`. -/
inductive TemperatureUnit where
  | FAHRENHEIT
  | CELSIUS
  deriving DecidableEq, Repr

/-- Model of `fahrenheitToCelsius` in `utils.ts`:
`(fahrenheit - 32) * (5 / 9)`. -/
def fahrenheitToCelsius (fahrenheit : ℚ) : ℚ :=
  (fahrenheit - 32) * (5 / 9)

/-- Model of `celsiusToFahrenheit` in `utils.ts`: `(celsius * 9 / 5) + 32`. -/
def celsiusToFahrenheit (celsius : ℚ) : ℚ :=
  (celsius * 9 / 5) + 32

/-- Model of `convertToFahrenheitForStorage` in `utils.ts`: converts only
when the input unit is Celsius. -/
def convertToFahrenheitForStorage (temp : ℚ) (inputUnit : TemperatureUnit) : ℚ :=
  if inputUnit = TemperatureUnit.CELSIUS then celsiusToFahrenheit temp else temp

/-- A `CycleDay` row, restricted to the fields the verified logic reads.
`date` is the `Date.getTime()` timestamp in milliseconds; `bbt` is `none`
when the stored `bbt` column is null. -/
structure CycleDay where
  id : ℕ
  cycleId : ℕ
  dayNumber : ℤ
  date : ℤ
  bbt : Option ℚ
  excludeFromInterpretation : Bool
  deriving DecidableEq, Repr

/-- A `Cycle` row together with its loaded `days`, restricted to the fields
the verified logic reads.  `endDate = none` models a null `endDate`. -/
structure Cycle where
  id : ℕ
  cycleNumber : ℤ
  startDate : ℤ
  endDate : Option ℤ
  isActive : Bool
  days : List CycleDay
  deriving DecidableEq, Repr

/-- Model of `allDaysWithBBT` in `CycleChartPage.tsx`:
`cycle.days.filter((day) => day.bbt !== null)`. -/
def allDaysWithBBT (days : List CycleDay) : List CycleDay :=
  days.filter (fun day => day.bbt.isSome)

/-- Model of `includedBBTDays` in `CycleChartPage.tsx`:
`allDaysWithBBT.filter((day) => !day.excludeFromInterpretation)`. -/
def includedBBTDays (days : List CycleDay) : List CycleDay :=
  (allDaysWithBBT days).filter (fun day => !day.excludeFromInterpretation)

/-- Model of `excludedBBTDays` in `CycleChartPage.tsx`:
`allDaysWithBBT.filter((day) => day.excludeFromInterpretation)`. -/
def excludedBBTDays (days : List CycleDay) : List CycleDay :=
  (allDaysWithBBT days).filter (fun day => day.excludeFromInterpretation)

/-- Model of `recordedMaxDay` inside `displayDayRange` in
`CycleChartPage.tsx`: `cycle.days.length > 0 ? Math.max(...dayNumbers) : 1`. -/
def recordedMaxDay (cycle : Cycle) : ℤ :=
  if 0 < cycle.days.length then
    ((cycle.days.map (fun day => day.dayNumber)).max?).getD 1
  else 1

/-- Model of `displayDayRange` in `CycleChartPage.tsx` for a loaded cycle:
`minDay` is always 1 and `maxDay` depends on whether `cycle.endDate` is set. -/
def displayDayRange (cycle : Cycle) : ℤ × ℤ :=
  let maxDay : ℤ :=
    match cycle.endDate with
    | some _ => max (recordedMaxDay cycle) 1
    | none => max 28 (recordedMaxDay cycle)
  (1, maxDay)

/-- Specification of `List.max?` on integer lists. -/
theorem int_list_max?_spec {l : List ℤ} {m : ℤ} (h : l.max? = some m) :
    m ∈ l ∧ ∀ b ∈ l, b ≤ m := by
  letI : Std.Antisymm (fun (x1 x2 : ℤ) => x1 ≤ x2) :=
    ⟨fun {a b} h1 h2 => le_antisymm h1 h2⟩
  exact (List.max?_eq_some_iff (fun a => le_refl a) (fun a b => max_choice a b)
    (fun a b c => max_le_iff)).mp h

/-- A nonempty integer list has a maximum. -/
theorem int_list_max?_isSome {l : List ℤ} (h : l ≠ []) :
    ∃ m, l.max? = some m := by
  cases hm : l.max? with
  | none => exact absurd (List.max?_eq_none_iff.mp hm) h
  | some m => exact ⟨m, rfl⟩

/-- C1: the chart-data derivation partitions the days having a non-null bbt
into exactly two series: the included series contains exactly the days with
`excludeFromInterpretation` false, the excluded series exactly those with it
true; a day with null bbt appears in neither, no day appears in both, and
each series keeps the order of `cycle.days` (it is a sublist of it). -/
theorem chart_bbt_series_partition (days : List CycleDay) (d : CycleDay) :
    (d ∈ includedBBTDays days ↔
      d ∈ days ∧ d.bbt ≠ none ∧ d.excludeFromInterpretation = false) ∧
    (d ∈ excludedBBTDays days ↔
      d ∈ days ∧ d.bbt ≠ none ∧ d.excludeFromInterpretation = true) ∧
    (d.bbt = none → d ∉ includedBBTDays days ∧ d ∉ excludedBBTDays days) ∧
    ¬(d ∈ includedBBTDays days ∧ d ∈ excludedBBTDays days) ∧
    (includedBBTDays days).Sublist days ∧
    (excludedBBTDays days).Sublist days := by
  have hin_iff : d ∈ includedBBTDays days ↔
      d ∈ days ∧ d.bbt ≠ none ∧ d.excludeFromInterpretation = false := by
    constructor
    · intro h
      have h1 := List.mem_filter.mp h
      have h2 := List.mem_filter.mp h1.1
      exact ⟨h2.1, Option.isSome_iff_ne_none.mp h2.2, by simpa using h1.2⟩
    · rintro ⟨hx, hb, hexc⟩
      exact List.mem_filter.mpr
        ⟨List.mem_filter.mpr ⟨hx, Option.isSome_iff_ne_none.mpr hb⟩, by simp [hexc]⟩
  have hex_iff : d ∈ excludedBBTDays days ↔
      d ∈ days ∧ d.bbt ≠ none ∧ d.excludeFromInterpretation = true := by
    constructor
    · intro h
      have h1 := List.mem_filter.mp h
      have h2 := List.mem_filter.mp h1.1
      exact ⟨h2.1, Option.isSome_iff_ne_none.mp h2.2, h1.2⟩
    · rintro ⟨hx, hb, hexc⟩
      exact List.mem_filter.mpr
        ⟨List.mem_filter.mpr ⟨hx, Option.isSome_iff_ne_none.mpr hb⟩, hexc⟩
  refine ⟨hin_iff, hex_iff, ?_, ?_, ?_, ?_⟩
  · intro hnone
    constructor
    · intro h; exact (hin_iff.mp h).2.1 hnone
    · intro h; exact (hex_iff.mp h).2.1 hnone
  · rintro ⟨hin, hex⟩
    have h1 : d.excludeFromInterpretation = false := (hin_iff.mp hin).2.2
    have h2 : d.excludeFromInterpretation = true := (hex_iff.mp hex).2.2
    simp [h1] at h2
  · exact ((allDaysWithBBT days).filter_sublist).trans (days.filter_sublist)
  · exact ((allDaysWithBBT days).filter_sublist).trans (days.filter_sublist)

/-- Witness for C1 on a concrete three-day cycle. -/
theorem chart_bbt_series_partition_witness :
    (⟨1, 0, 1, 0, some 98, false⟩ : CycleDay) ∈
      includedBBTDays [⟨1, 0, 1, 0, some 98, false⟩, ⟨2, 0, 2, 1, some 97, true⟩,
        ⟨3, 0, 3, 2, none, false⟩] ∧
    (⟨3, 0, 3, 2, none, false⟩ : CycleDay) ∉
      includedBBTDays [⟨1, 0, 1, 0, some 98, false⟩, ⟨2, 0, 2, 1, some 97, true⟩,
        ⟨3, 0, 3, 2, none, false⟩] := by
  refine ⟨?_, ?_⟩
  · exact (chart_bbt_series_partition
      [⟨1, 0, 1, 0, some 98, false⟩, ⟨2, 0, 2, 1, some 97, true⟩,
        ⟨3, 0, 3, 2, none, false⟩] ⟨1, 0, 1, 0, some 98, false⟩).1.mpr
      (by simp)
  · exact ((chart_bbt_series_partition
      [⟨1, 0, 1, 0, some 98, false⟩, ⟨2, 0, 2, 1, some 97, true⟩,
        ⟨3, 0, 3, 2, none, false⟩] ⟨3, 0, 3, 2, none, false⟩).2.2.1 rfl).1

/-- C8: over the rationals the two temperature conversions are mutually
inverse, and `convertToFahrenheitForStorage` is injective for each fixed
input unit. -/
theorem temperature_conversions_inverse :
    (∀ t : ℚ, celsiusToFahrenheit (fahrenheitToCelsius t) = t) ∧
    (∀ t : ℚ, fahrenheitToCelsius (celsiusToFahrenheit t) = t) ∧
    (∀ u : TemperatureUnit,
      Function.Injective (fun t => convertToFahrenheitForStorage t u)) := by
  refine ⟨?_, ?_, ?_⟩
  · intro t; unfold celsiusToFahrenheit fahrenheitToCelsius; ring
  · intro t; unfold celsiusToFahrenheit fahrenheitToCelsius; ring
  · intro u a b hab
    cases u with
    | FAHRENHEIT => simpa [convertToFahrenheitForStorage] using hab
    | CELSIUS =>
      have h : celsiusToFahrenheit a = celsiusToFahrenheit b := by
        simpa [convertToFahrenheitForStorage] using hab
      have h2 : fahrenheitToCelsius (celsiusToFahrenheit a)
          = fahrenheitToCelsius (celsiusToFahrenheit b) := by rw [h]
      calc a = fahrenheitToCelsius (celsiusToFahrenheit a) := by
              unfold celsiusToFahrenheit fahrenheitToCelsius; ring
        _ = fahrenheitToCelsius (celsiusToFahrenheit b) := h2
        _ = b := by unfold celsiusToFahrenheit fahrenheitToCelsius; ring

/-- Witness for C8 at the concrete temperatures 98.6 °F and 37 °C. -/
theorem temperature_conversions_inverse_witness :
    celsiusToFahrenheit (fahrenheitToCelsius (493 / 5)) = 493 / 5 ∧
    fahrenheitToCelsius (celsiusToFahrenheit 37) = 37 := by
  exact ⟨temperature_conversions_inverse.1 (493 / 5),
    temperature_conversions_inverse.2.1 37⟩

/-- C10: the displayed day range always has `minDay` 1; with `endDate` unset
(the active cycle) `maxDay` is `max 28 recordedMaxDay`, so the chart never
shows fewer than 28 day columns; with `endDate` set it is
`max recordedMaxDay 1`, shrinking to the recorded length.  Moreover
`recordedMaxDay` really is the highest recorded `dayNumber` (or 1 when the
cycle has no recorded days), and every recorded day fits in the range. -/
theorem displayDayRange_spec (cycle : Cycle) :
    (displayDayRange cycle).1 = 1 ∧
    (cycle.endDate = none →
      (displayDayRange cycle).2 = max 28 (recordedMaxDay cycle) ∧
      28 ≤ (displayDayRange cycle).2) ∧
    (∀ e, cycle.endDate = some e →
      (displayDayRange cycle).2 = max (recordedMaxDay cycle) 1) ∧
    (∀ d ∈ cycle.days, d.dayNumber ≤ recordedMaxDay cycle) ∧
    (cycle.days ≠ [] → recordedMaxDay cycle ∈ cycle.days.map (fun d => d.dayNumber)) ∧
    (∀ d ∈ cycle.days, d.dayNumber ≤ (displayDayRange cycle).2) := by
  have hmax : ∀ d ∈ cycle.days, d.dayNumber ≤ recordedMaxDay cycle := by
    intro d hd
    have hne : cycle.days ≠ [] := by
      intro h; rw [h] at hd; exact absurd hd (List.not_mem_nil d)
    have hlen : 0 < cycle.days.length := List.length_pos.mpr hne
    obtain ⟨m, hm⟩ := int_list_max?_isSome
      (show cycle.days.map (fun d => d.dayNumber) ≠ [] by simpa using hne)
    have hspec := int_list_max?_spec hm
    have : recordedMaxDay cycle = m := by simp [recordedMaxDay, hlen, hm]
    rw [this]
    exact hspec.2 d.dayNumber (List.mem_map_of_mem (fun d => d.dayNumber) hd)
  have hmem : cycle.days ≠ [] →
      recordedMaxDay cycle ∈ cycle.days.map (fun d => d.dayNumber) := by
    intro hne
    have hlen : 0 < cycle.days.length := List.length_pos.mpr hne
    obtain ⟨m, hm⟩ := int_list_max?_isSome
      (show cycle.days.map (fun d => d.dayNumber) ≠ [] by simpa using hne)
    have hspec := int_list_max?_spec hm
    have : recordedMaxDay cycle = m := by simp [recordedMaxDay, hlen, hm]
    rw [this]
    exact hspec.1
  have hle : ∀ d ∈ cycle.days, d.dayNumber ≤ (displayDayRange cycle).2 := by
    intro d hd
    have h1 := hmax d hd
    cases hED : cycle.endDate with
    | none =>
      calc d.dayNumber ≤ recordedMaxDay cycle := h1
        _ ≤ max 28 (recordedMaxDay cycle) := le_max_right _ _
        _ = (displayDayRange cycle).2 := by simp [displayDayRange, hED]
    | some e =>
      calc d.dayNumber ≤ recordedMaxDay cycle := h1
        _ ≤ max (recordedMaxDay cycle) 1 := le_max_left _ _
        _ = (displayDayRange cycle).2 := by simp [displayDayRange, hED]
  refine ⟨by simp [displayDayRange], ?_, ?_, hmax, hmem, hle⟩
  · intro hED
    constructor
    · simp [displayDayRange, hED]
    · have : (displayDayRange cycle).2 = max 28 (recordedMaxDay cycle) := by
        simp [displayDayRange, hED]
      rw [this]; exact le_max_left _ _
  · intro e hED
    simp [displayDayRange, hED]

/-- Witness for C10 on a concrete ended two-day cycle. -/
theorem displayDayRange_spec_witness :
    (displayDayRange ⟨7, 2, 0, some 86400000,
      false, [⟨1, 7, 1, 0, some 98, false⟩, ⟨2, 7, 2, 86400000, none, false⟩]⟩).2
      = 2 := by
  have h := (displayDayRange_spec ⟨7, 2, 0, some 86400000,
    false, [⟨1, 7, 1, 0, some 98, false⟩, ⟨2, 7, 2, 86400000, none, false⟩]⟩).2.2.1
    86400000 rfl
  rw [h]
  decide

/-- Model of the auto-calculated day number in `createOrUpdateCycleDay`
(`operations.ts`): `Math.floor((entryDate - startDate) / (1000*60*60*24)) + 1`,
with both dates taken as `Date.getTime()` millisecond timestamps. -/
def computeDayNumber (entryTime startTime : ℤ) : ℤ :=
  ⌊((entryTime - startTime : ℤ) : ℚ) / (1000 * 60 * 60 * 24)⌋ + 1

/-- Model of the day-number resolution in `createOrUpdateCycleDay`: a truthy
explicit `args.dayNumber` wins; `undefined` (and the falsy 0) fall back to the
auto-calculated value. -/
def resolveDayNumber (argDayNumber : Option ℤ) (entryTime startTime : ℤ) : ℤ :=
  match argDayNumber with
  | some n => if n = 0 then computeDayNumber entryTime startTime else n
  | none => computeDayNumber entryTime startTime

/-- C2: with no explicit `dayNumber`, `createOrUpdateCycleDay` stores
`floor((entryDate - startDate) in whole 24-hour days) + 1`; an entry dated on
the cycle start date gets day number 1, an entry `k` whole days after the
start gets `k + 1`, and adding one more 24-hour day raises the day number by
exactly 1. -/
theorem createOrUpdateCycleDay_dayNumber (startTime entryTime k : ℤ) :
    resolveDayNumber none entryTime startTime
      = ⌊((entryTime - startTime : ℤ) : ℚ) / (24 * 60 * 60 * 1000)⌋ + 1 ∧
    resolveDayNumber none startTime startTime = 1 ∧
    resolveDayNumber none (startTime + k * (24 * 60 * 60 * 1000)) startTime = k + 1 ∧
    resolveDayNumber none (entryTime + 24 * 60 * 60 * 1000) startTime
      = resolveDayNumber none entryTime startTime + 1 := by
  refine ⟨?_, ?_, ?_, ?_⟩
  · show computeDayNumber entryTime startTime = _
    unfold computeDayNumber
    norm_num
  · show computeDayNumber startTime startTime = 1
    unfold computeDayNumber
    norm_num
  · show computeDayNumber (startTime + k * (24 * 60 * 60 * 1000)) startTime = k + 1
    unfold computeDayNumber
    have h0 : ((startTime + k * (24 * 60 * 60 * 1000) - startTime : ℤ) : ℚ)
        = (k : ℚ) * (1000 * 60 * 60 * 24) := by
      push_cast
      ring
    have h1 : ((startTime + k * (24 * 60 * 60 * 1000) - startTime : ℤ) : ℚ)
        / (1000 * 60 * 60 * 24) = (k : ℚ) := by
      rw [h0, mul_div_assoc]
      norm_num
    rw [h1, Int.floor_intCast]
  · show computeDayNumber (entryTime + 24 * 60 * 60 * 1000) startTime
      = computeDayNumber entryTime startTime + 1
    unfold computeDayNumber
    have h0 : ((entryTime + 24 * 60 * 60 * 1000 - startTime : ℤ) : ℚ)
        = ((entryTime - startTime : ℤ) : ℚ) + (1000 * 60 * 60 * 24) := by
      push_cast
      ring
    have h1 : ((entryTime + 24 * 60 * 60 * 1000 - startTime : ℤ) : ℚ)
        / (1000 * 60 * 60 * 24)
        = ((entryTime - startTime : ℤ) : ℚ) / (1000 * 60 * 60 * 24) + 1 := by
      rw [h0, add_div, div_self (by norm_num : (1000 * 60 * 60 * 24 : ℚ) ≠ 0)]
    rw [h1, Int.floor_add_one]

/-- Witness for C2 at a cycle starting at timestamp 0 and an entry three
whole days later. -/
theorem createOrUpdateCycleDay_dayNumber_witness :
    resolveDayNumber none (3 * (24 * 60 * 60 * 1000)) 0 = 4 := by
  have h := (createOrUpdateCycleDay_dayNumber 0 0 3).2.2.1
  simpa using h

/-- Model of `inferTemperatureUnit` in `operations.ts`: Fahrenheit for an
empty list, otherwise Celsius exactly when the average is strictly below
60. -/
def inferTemperatureUnit (temps : List ℚ) : TemperatureUnit :=
  if temps.length = 0 then TemperatureUnit.FAHRENHEIT
  else if temps.foldl (fun sum val => sum + val) 0 / (temps.length : ℚ) < 60 then
    TemperatureUnit.CELSIUS
  else TemperatureUnit.FAHRENHEIT

/-- Model of `daysBetween` in `operations.ts`. -/
def daysBetween (start current : ℤ) : ℤ :=
  ⌊((current - start : ℤ) : ℚ) / (1000 * 60 * 60 * 24)⌋

/-- A parsed CSV record, abstracted to the values `importCycleCsv` derives
from it: `parsedDate` is the `getTime()` value of
`parseDateSafe(row.d ?? row.date)` (`none` when that returns null), `temp`
is `Number.parseFloat(row.bf ?? row.BF ?? row.temp ?? '')` (`none` when not
finite), and `cd` is the explicit cycle-day column when present and truthy. -/
structure CsvRow where
  parsedDate : Option ℤ
  temp : Option ℚ
  cd : Option ℤ
  deriving DecidableEq, Repr

/-- A day as stored by the import loop of `importCycleCsv`, restricted to
the fields the claims are about. -/
structure ImportedDay where
  dayNumber : ℤ
  date : ℤ
  bbt : Option ℚ
  deriving DecidableEq, Repr

/-- The data produced by a successful `importCycleCsv` run: the stored days
in processing order and the `detectedUnit` of the returned summary. -/
structure ImportSummary where
  storedDays : List ImportedDay
  detectedUnit : TemperatureUnit
  deriving DecidableEq, Repr

/-- Model of the row sort in `importCycleCsv`:
`sort((a, b) => a.parsedDate.getTime() - b.parsedDate.getTime())`, a stable
ascending sort by parsed date. -/
def sortRowsByDate (rows : List CsvRow) : List CsvRow :=
  rows.mergeSort (fun a b => decide (a.parsedDate.getD 0 ≤ b.parsedDate.getD 0))

/-- Model of the body of the import loop of `importCycleCsv` for one row:
day number from the `cd` column or from `daysBetween(firstDate, entry) + 1`,
and `bbt` put through `convertTemperature`, which converts with
`celsiusToFahrenheit` exactly when the detected unit is Celsius. -/
def storeRow (detectedUnit : TemperatureUnit) (firstDate : ℤ) (row : CsvRow) :
    ImportedDay :=
  let entryDate := row.parsedDate.getD 0
  let computedDayNumber :=
    match row.cd with
    | some n => n
    | none => daysBetween firstDate entryDate + 1
  ⟨computedDayNumber, entryDate,
    row.temp.map fun v =>
      if detectedUnit = TemperatureUnit.CELSIUS then celsiusToFahrenheit v else v⟩

/-- Model of the pure data pipeline of `importCycleCsv` in `operations.ts`.
`Except.error 400` models `throw new HttpError(400, ...)`; both throws happen
before the function touches any `Cycle` or `CycleDay` entity, which the model
reflects by producing the stored days only inside the `Except.ok` result. -/
def importCycleCsv (rows : List CsvRow) : Except ℕ ImportSummary :=
  if rows.length = 0 then Except.error 400
  else
    let parsedRows := sortRowsByDate (rows.filter fun row => row.parsedDate.isSome)
    if parsedRows.length = 0 then Except.error 400
    else
      let detectedUnit := inferTemperatureUnit (parsedRows.filterMap fun row => row.temp)
      let firstDate := (parsedRows.headD ⟨none, none, none⟩).parsedDate.getD 0
      Except.ok ⟨parsedRows.map (storeRow detectedUnit firstDate), detectedUnit⟩

/-- `inferTemperatureUnit` only depends on the multiset of temperatures. -/
theorem inferTemperatureUnit_perm {l1 l2 : List ℚ} (h : l1.Perm l2) :
    inferTemperatureUnit l1 = inferTemperatureUnit l2 := by
  have hlen := h.length_eq
  have hsum : l1.foldl (fun sum val => sum + val) 0
      = l2.foldl (fun sum val => sum + val) 0 := by
    rw [← List.sum_eq_foldl, ← List.sum_eq_foldl]
    exact h.sum_eq
  unfold inferTemperatureUnit
  rw [hlen, hsum]

/-- The sorted row list is a permutation of its input. -/
theorem sortRowsByDate_perm (rows : List CsvRow) :
    (sortRowsByDate rows).Perm rows :=
  List.mergeSort_perm rows _

/-- The sorted row list is ascending in the parsed date. -/
theorem sortRowsByDate_sorted (rows : List CsvRow) :
    (sortRowsByDate rows).Pairwise
      (fun a b => a.parsedDate.getD 0 ≤ b.parsedDate.getD 0) := by
  have h := @List.sorted_mergeSort CsvRow
    (fun a b => decide (a.parsedDate.getD 0 ≤ b.parsedDate.getD 0))
    (fun a b c hab hbc => by
      simp only [decide_eq_true_eq] at hab hbc ⊢
      exact le_trans hab hbc)
    (fun a b => by
      simp only [Bool.or_eq_true, decide_eq_true_eq]
      exact le_total _ _)
    rows
  exact h.imp (fun hab => of_decide_eq_true hab)

/-- Mapping the date out of the date-bearing rows is the same as
`filterMap` over all rows. -/
theorem filter_isSome_map_getD (l : List CsvRow) :
    (l.filter fun row => row.parsedDate.isSome).map (fun row => row.parsedDate.getD 0)
      = l.filterMap fun row => row.parsedDate := by
  induction l with
  | nil => rfl
  | cons r rest ih =>
    cases hr : r.parsedDate with
    | none => simp [List.filter_cons, List.filterMap_cons, hr, ih]
    | some t => simp [List.filter_cons, List.filterMap_cons, hr, ih]

/-- Unfolding of a successful `importCycleCsv` run. -/
theorem importCycleCsv_ok_eq {rows : List CsvRow} {summary : ImportSummary}
    (h : importCycleCsv rows = Except.ok summary) :
    summary.storedDays
        = (sortRowsByDate (rows.filter fun row => row.parsedDate.isSome)).map
          (storeRow summary.detectedUnit
            (((sortRowsByDate (rows.filter fun row => row.parsedDate.isSome)).headD
              ⟨none, none, none⟩).parsedDate.getD 0)) ∧
    summary.detectedUnit
        = inferTemperatureUnit
          ((sortRowsByDate (rows.filter fun row => row.parsedDate.isSome)).filterMap
            fun row => row.temp) := by
  simp only [importCycleCsv] at h
  split_ifs at h
  rw [Except.ok.injEq] at h
  constructor
  · rw [← h]
  · rw [← h]

/-- C3: `inferTemperatureUnit` returns Celsius iff the list is nonempty with
average strictly below 60 and Fahrenheit otherwise; the `detectedUnit` of a
successful import equals `inferTemperatureUnit` on the parseable
temperatures of the date-bearing rows, and under a Celsius detection every
stored bbt is the `celsiusToFahrenheit` image of its row's temperature. -/
theorem inferTemperatureUnit_spec :
    (∀ temps : List ℚ, inferTemperatureUnit temps = TemperatureUnit.CELSIUS ↔
      temps ≠ [] ∧
        temps.foldl (fun sum val => sum + val) 0 / (temps.length : ℚ) < 60) ∧
    (∀ temps : List ℚ, inferTemperatureUnit temps = TemperatureUnit.FAHRENHEIT ↔
      ¬(temps ≠ [] ∧
        temps.foldl (fun sum val => sum + val) 0 / (temps.length : ℚ) < 60)) ∧
    (∀ rows summary, importCycleCsv rows = Except.ok summary →
      summary.detectedUnit
        = inferTemperatureUnit
          ((rows.filter fun row => row.parsedDate.isSome).filterMap
            fun row => row.temp) ∧
      (summary.detectedUnit = TemperatureUnit.CELSIUS →
        ∀ d ∈ summary.storedDays, ∃ row ∈ rows,
          row.parsedDate = some d.date ∧ d.bbt = row.temp.map celsiusToFahrenheit)) := by
  have hCel : ∀ temps : List ℚ, inferTemperatureUnit temps = TemperatureUnit.CELSIUS ↔
      temps ≠ [] ∧
        temps.foldl (fun sum val => sum + val) 0 / (temps.length : ℚ) < 60 := by
    intro temps
    unfold inferTemperatureUnit
    split_ifs with h1 h2
    · have hnil : temps = [] := List.length_eq_zero.mp h1
      subst hnil
      simp
    · have hne : temps ≠ [] := fun hh => h1 (by rw [hh]; rfl)
      simp [hne, h2]
    · have hne : temps ≠ [] := fun hh => h1 (by rw [hh]; rfl)
      simp [hne, h2]
  refine ⟨hCel, ?_, ?_⟩
  · intro temps
    constructor
    · intro h hc
      rw [← hCel temps] at hc
      rw [h] at hc
      cases hc
    · intro h
      cases hu : inferTemperatureUnit temps with
      | FAHRENHEIT => rfl
      | CELSIUS => exact absurd ((hCel temps).mp hu) h
  · intro rows summary h
    obtain ⟨hdays, hunit⟩ := importCycleCsv_ok_eq h
    have hperm : ((sortRowsByDate (rows.filter fun row => row.parsedDate.isSome)).filterMap
          fun row => row.temp).Perm
        ((rows.filter fun row => row.parsedDate.isSome).filterMap fun row => row.temp) :=
      List.Perm.filterMap _ (sortRowsByDate_perm _)
    constructor
    · rw [hunit]
      exact inferTemperatureUnit_perm hperm
    · intro hc d hd
      rw [hdays] at hd
      obtain ⟨row, hrow, hmap⟩ := List.mem_map.mp hd
      have hrow2 : row ∈ rows.filter fun row => row.parsedDate.isSome :=
        (sortRowsByDate_perm _).mem_iff.mp hrow
      have hrow3 : row ∈ rows := (List.mem_filter.mp hrow2).1
      have hsome : row.parsedDate.isSome = true := (List.mem_filter.mp hrow2).2
      obtain ⟨t, ht⟩ := Option.isSome_iff_exists.mp hsome
      refine ⟨row, hrow3, ?_, ?_⟩
      · rw [← hmap]
        simp [storeRow, ht]
      · rw [← hmap]
        simp [storeRow, hc]

/-- Witness for C3 at concrete temperature lists: 36 and 37 average below
60 and are read as Celsius, the empty list as Fahrenheit. -/
theorem inferTemperatureUnit_spec_witness :
    inferTemperatureUnit [(36 : ℚ), 37] = TemperatureUnit.CELSIUS ∧
    inferTemperatureUnit [] = TemperatureUnit.FAHRENHEIT := by
  constructor
  · exact (inferTemperatureUnit_spec.1 [(36 : ℚ), 37]).mpr
      ⟨by simp, by norm_num⟩
  · exact (inferTemperatureUnit_spec.2.1 []).mpr (by simp)

/-- C9: `importCycleCsv` fails with HTTP 400 on an empty row list and when no
row has a parseable date — in the model these failures yield no stored days
at all; rows without a parseable date are dropped, and the stored days are
the date-bearing rows in ascending order of parsed date, whatever the order
of the input. -/
theorem importCycleCsv_error_and_order (rows : List CsvRow) :
    (rows = [] → importCycleCsv rows = Except.error 400) ∧
    ((rows.filter fun row => row.parsedDate.isSome) = [] →
      importCycleCsv rows = Except.error 400) ∧
    (∀ summary, importCycleCsv rows = Except.ok summary →
      summary.storedDays.Pairwise (fun a b => a.date ≤ b.date) ∧
      (summary.storedDays.map fun d => d.date).Perm
        (rows.filterMap fun row => row.parsedDate) ∧
      summary.storedDays.length
        = (rows.filter fun row => row.parsedDate.isSome).length) := by
  refine ⟨?_, ?_, ?_⟩
  · intro h
    rw [h]
    rfl
  · intro h
    simp only [importCycleCsv]
    split_ifs with h1 h2
    · rfl
    · rfl
    · exfalso
      apply h2
      rw [h]
      simp [sortRowsByDate, List.length_mergeSort]
  · intro summary h
    obtain ⟨hdays, hunit⟩ := importCycleCsv_ok_eq h
    set sorted := sortRowsByDate (rows.filter fun row => row.parsedDate.isSome) with hs
    refine ⟨?_, ?_, ?_⟩
    · rw [hdays]
      rw [List.pairwise_map]
      have hsorted := sortRowsByDate_sorted (rows.filter fun row => row.parsedDate.isSome)
      exact hsorted.imp (fun hab => by simpa [storeRow] using hab)
    · rw [hdays]
      have hmapeq : (sorted.map (storeRow summary.detectedUnit
            ((sorted.headD ⟨none, none, none⟩).parsedDate.getD 0))).map (fun d => d.date)
          = sorted.map (fun row => row.parsedDate.getD 0) := by
        rw [List.map_map]
        rfl
      rw [hmapeq]
      have hperm2 : (sorted.map fun row => row.parsedDate.getD 0).Perm
          ((rows.filter fun row => row.parsedDate.isSome).map
            fun row => row.parsedDate.getD 0) :=
        List.Perm.map _ (sortRowsByDate_perm _)
      rw [filter_isSome_map_getD] at hperm2
      exact hperm2
    · rw [hdays]
      rw [List.length_map]
      exact (sortRowsByDate_perm _).length_eq

/-- Witness for C9: the empty CSV and a CSV whose single row has no
parseable date both fail with HTTP 400. -/
theorem importCycleCsv_error_and_order_witness :
    importCycleCsv [] = Except.error 400 ∧
    importCycleCsv [⟨none, some 98, none⟩] = Except.error 400 := by
  exact ⟨(importCycleCsv_error_and_order []).1 rfl,
    (importCycleCsv_error_and_order [⟨none, some 98, none⟩]).2.1 rfl⟩

/-- Model of the deactivation step of `createCycle` in `operations.ts`: an
active cycle becomes inactive with `endDate` set to its most recently
recorded day's date (the query takes the days ordered by date descending and
keeps the first), or to its `startDate` when it has no recorded day; an
inactive cycle is left untouched. -/
def deactivateForNewCycle (cycle : Cycle) : Cycle :=
  if cycle.isActive then
    { cycle with
      isActive := false
      endDate := some (((cycle.days.map fun day => day.date).max?).getD cycle.startDate) }
  else cycle

/-- Model of `createCycle` in `operations.ts`: deactivates the active
cycles, then appends a fresh active cycle numbered one past the user's
highest `cycleNumber` (1 when the user has none).  `newId` abstracts the
database-generated id; the result pairs the updated cycle list with the new
cycle. -/
def createCycle (cycles : List Cycle) (startDate : ℤ) (newId : ℕ) :
    List Cycle × Cycle :=
  let deactivated := cycles.map deactivateForNewCycle
  let nextCycleNumber : ℤ :=
    match (cycles.map fun cycle => cycle.cycleNumber).max? with
    | some m => m + 1
    | none => 1
  let newCycle : Cycle := ⟨newId, nextCycleNumber, startDate, none, true, []⟩
  (deactivated ++ [newCycle], newCycle)

/-- The deactivation step always yields an inactive cycle. -/
theorem deactivateForNewCycle_isActive (cycle : Cycle) :
    (deactivateForNewCycle cycle).isActive = false := by
  unfold deactivateForNewCycle
  split_ifs with h
  · rfl
  · simpa using h

/-- C5: `createCycle` turns every previously active cycle inactive with
`endDate` the date of its most recently recorded day (its `startDate` when
it has none), leaves inactive cycles alone, and appends a new active cycle
whose `cycleNumber` is one more than the user's highest (1 for a first
cycle); afterwards the new cycle is the only active one. -/
theorem createCycle_spec (cycles : List Cycle) (startDate : ℤ) (newId : ℕ) :
    (createCycle cycles startDate newId).2.isActive = true ∧
    (createCycle cycles startDate newId).2 ∈ (createCycle cycles startDate newId).1 ∧
    (∀ c ∈ (createCycle cycles startDate newId).1,
      c.isActive = true → c = (createCycle cycles startDate newId).2) ∧
    (∀ c ∈ cycles, c.isActive = true →
      (deactivateForNewCycle c).isActive = false ∧
      (c.days = [] → (deactivateForNewCycle c).endDate = some c.startDate) ∧
      (∀ m, (c.days.map fun day => day.date).max? = some m →
        (deactivateForNewCycle c).endDate = some m ∧
        m ∈ c.days.map (fun day => day.date) ∧
        ∀ d ∈ c.days, d.date ≤ m) ∧
      deactivateForNewCycle c ∈ (createCycle cycles startDate newId).1) ∧
    (∀ c ∈ cycles, c.isActive = false → c ∈ (createCycle cycles startDate newId).1) ∧
    (cycles = [] → (createCycle cycles startDate newId).2.cycleNumber = 1) ∧
    (∀ c ∈ cycles, c.cycleNumber < (createCycle cycles startDate newId).2.cycleNumber) ∧
    (cycles ≠ [] → ∃ c ∈ cycles,
      (createCycle cycles startDate newId).2.cycleNumber = c.cycleNumber + 1) := by
  refine ⟨rfl, ?_, ?_, ?_, ?_, ?_, ?_, ?_⟩
  · simp [createCycle]
  · intro c hc hactive
    simp only [createCycle, List.mem_append, List.mem_map, List.mem_singleton] at hc
    rcases hc with ⟨c0, _, hdeact⟩ | hnew
    · rw [← hdeact] at hactive
      rw [deactivateForNewCycle_isActive c0] at hactive
      cases hactive
    · rw [hnew]
      rfl
  · intro c hc hactive
    refine ⟨deactivateForNewCycle_isActive c, ?_, ?_, ?_⟩
    · intro hnil
      unfold deactivateForNewCycle
      rw [hactive]
      simp [hnil]
    · intro m hm
      have hspec := int_list_max?_spec hm
      refine ⟨?_, hspec.1, ?_⟩
      · unfold deactivateForNewCycle
        rw [hactive]
        simp [hm]
      · intro d hd
        exact hspec.2 d.date (List.mem_map_of_mem (fun day => day.date) hd)
    · simp only [createCycle, List.mem_append, List.mem_map]
      exact Or.inl ⟨c, hc, rfl⟩
  · intro c hc hinactive
    have hdeact : deactivateForNewCycle c = c := by
      unfold deactivateForNewCycle
      rw [hinactive]
      simp
    simp only [createCycle, List.mem_append, List.mem_map]
    exact Or.inl ⟨c, hc, hdeact⟩
  · intro hnil
    simp [createCycle, hnil]
  · intro c hc
    have hne : (cycles.map fun cycle => cycle.cycleNumber) ≠ [] := by
      simp only [ne_eq, List.map_eq_nil_iff]
      intro hnil
      rw [hnil] at hc
      exact absurd hc (List.not_mem_nil c)
    obtain ⟨m, hm⟩ := int_list_max?_isSome hne
    have hspec := int_list_max?_spec hm
    have hnum : (createCycle cycles startDate newId).2.cycleNumber = m + 1 := by
      simp [createCycle, hm]
    rw [hnum]
    have := hspec.2 c.cycleNumber (List.mem_map_of_mem (fun cycle => cycle.cycleNumber) hc)
    omega
  · intro hne
    have hne2 : (cycles.map fun cycle => cycle.cycleNumber) ≠ [] := by
      simpa using hne
    obtain ⟨m, hm⟩ := int_list_max?_isSome hne2
    have hspec := int_list_max?_spec hm
    obtain ⟨c, hc, hcm⟩ := List.mem_map.mp hspec.1
    refine ⟨c, hc, ?_⟩
    rw [hcm]
    simp [createCycle, hm]

/-- Witness for C5: a user with no cycles gets cycle number 1 and an active
new cycle. -/
theorem createCycle_spec_witness :
    (createCycle [] 0 1).2.cycleNumber = 1 ∧
    (createCycle [] 0 1).2.isActive = true := by
  exact ⟨(createCycle_spec [] 0 1).2.2.2.2.2.1 rfl, (createCycle_spec [] 0 1).1⟩

/-- Model of the Prisma `orderBy: { dayNumber: 'asc' }` include used by the
queries in `operations.ts`: a stable ascending sort of the day rows. -/
def sortDaysByDayNumber (days : List CycleDay) : List CycleDay :=
  days.mergeSort (fun a b => decide (a.dayNumber ≤ b.dayNumber))

/-- Model of `ensureCycleEndDate` in `operations.ts`, applied to a cycle
whose `days` were loaded in `dayNumber`-ascending order: an active cycle, or
one with no recorded day, is returned untouched; otherwise the `endDate` is
aligned with the last day's date (written back only when it differed, the
returned value being the same either way). -/
def ensureCycleEndDate (cycle : Cycle) : Cycle :=
  if cycle.isActive then cycle
  else
    match cycle.days.getLast? with
    | none => cycle
    | some lastDay =>
      if cycle.endDate = some lastDay.date then cycle
      else { cycle with endDate := some lastDay.date }

/-- Model of the Prisma `orderBy: { cycleNumber: 'desc' }` of
`getUserCycles`. -/
def sortCyclesByNumberDesc (cycles : List Cycle) : List Cycle :=
  cycles.mergeSort (fun a b => decide (b.cycleNumber ≤ a.cycleNumber))

/-- Model of `getUserCycles` in `operations.ts`: the user's cycles ordered
by `cycleNumber` descending with days ordered by `dayNumber` ascending, each
normalized through `ensureCycleEndDate`. -/
def getUserCycles (cycles : List Cycle) : List Cycle :=
  (sortCyclesByNumberDesc cycles).map
    (fun cycle => ensureCycleEndDate { cycle with days := sortDaysByDayNumber cycle.days })

/-- Model of `getCycleById` in `operations.ts`: the cycle with the given id
with its days ordered by `dayNumber` ascending, or HTTP 404. -/
def getCycleById (cycles : List Cycle) (cycleId : ℕ) : Except ℕ Cycle :=
  match cycles.find? (fun cycle => cycle.id == cycleId) with
  | none => Except.error 404
  | some cycle => Except.ok { cycle with days := sortDaysByDayNumber cycle.days }

/-- Model of `getCycleDays` in `operations.ts`: HTTP 404 when the cycle does
not exist, otherwise the cycle's day rows ordered by `dayNumber`
ascending. -/
def getCycleDays (cycles : List Cycle) (days : List CycleDay) (cycleId : ℕ) :
    Except ℕ (List CycleDay) :=
  match cycles.find? (fun cycle => cycle.id == cycleId) with
  | none => Except.error 404
  | some _ =>
    Except.ok (sortDaysByDayNumber (days.filter fun day => day.cycleId == cycleId))

/-- The day sort is ascending in `dayNumber`. -/
theorem sortDaysByDayNumber_sorted (days : List CycleDay) :
    (sortDaysByDayNumber days).Pairwise (fun a b => a.dayNumber ≤ b.dayNumber) := by
  have h := @List.sorted_mergeSort CycleDay
    (fun a b => decide (a.dayNumber ≤ b.dayNumber))
    (fun a b c hab hbc => by
      simp only [decide_eq_true_eq] at hab hbc ⊢
      exact le_trans hab hbc)
    (fun a b => by
      simp only [Bool.or_eq_true, decide_eq_true_eq]
      exact le_total _ _)
    days
  exact h.imp (fun hab => of_decide_eq_true hab)

/-- `ensureCycleEndDate` never touches the day list, nor any field other
than `endDate`. -/
theorem ensureCycleEndDate_fields (cycle : Cycle) :
    (ensureCycleEndDate cycle).id = cycle.id ∧
    (ensureCycleEndDate cycle).cycleNumber = cycle.cycleNumber ∧
    (ensureCycleEndDate cycle).startDate = cycle.startDate ∧
    (ensureCycleEndDate cycle).isActive = cycle.isActive ∧
    (ensureCycleEndDate cycle).days = cycle.days := by
  unfold ensureCycleEndDate
  split_ifs with h
  · exact ⟨rfl, rfl, rfl, rfl, rfl⟩
  · cases hl : cycle.days.getLast? with
    | none => exact ⟨rfl, rfl, rfl, rfl, rfl⟩
    | some lastDay =>
      dsimp only
      split_ifs with h2
      · exact ⟨rfl, rfl, rfl, rfl, rfl⟩
      · exact ⟨rfl, rfl, rfl, rfl, rfl⟩

/-- An inactive cycle with a recorded day comes out of `ensureCycleEndDate`
with `endDate` equal to the last day's date. -/
theorem ensureCycleEndDate_endDate {cycle : Cycle} {lastDay : CycleDay}
    (hact : cycle.isActive = false) (hlast : cycle.days.getLast? = some lastDay) :
    (ensureCycleEndDate cycle).endDate = some lastDay.date := by
  unfold ensureCycleEndDate
  rw [hact, hlast]
  simp only [Bool.false_eq_true, if_false]
  split_ifs with h2
  · rw [h2]
  · rfl

/-- C6: every inactive cycle with at least one recorded day returned by
`getUserCycles` carries `endDate` equal to the date of the last day in the
`dayNumber`-ascending order; an active cycle, or an inactive one without
recorded days, passes through `ensureCycleEndDate` completely unchanged, and
the normalization never alters any field other than `endDate`. -/
theorem getUserCycles_endDate_normalization :
    (∀ cycle : Cycle, cycle.isActive = true → ensureCycleEndDate cycle = cycle) ∧
    (∀ cycle : Cycle, cycle.days = [] → ensureCycleEndDate cycle = cycle) ∧
    (∀ cycle : Cycle, cycle.isActive = false →
      ∀ lastDay, cycle.days.getLast? = some lastDay →
        (ensureCycleEndDate cycle).endDate = some lastDay.date ∧
        (ensureCycleEndDate cycle).days = cycle.days ∧
        (ensureCycleEndDate cycle).isActive = false) ∧
    (∀ cycles : List Cycle, ∀ r ∈ getUserCycles cycles, r.isActive = false →
      ∀ lastDay, r.days.getLast? = some lastDay → r.endDate = some lastDay.date) := by
  refine ⟨?_, ?_, ?_, ?_⟩
  · intro cycle h
    unfold ensureCycleEndDate
    rw [h]
    simp
  · intro cycle h
    unfold ensureCycleEndDate
    rw [h]
    simp
  · intro cycle hact lastDay hlast
    refine ⟨ensureCycleEndDate_endDate hact hlast, ?_, ?_⟩
    · exact (ensureCycleEndDate_fields cycle).2.2.2.2
    · rw [(ensureCycleEndDate_fields cycle).2.2.2.1, hact]
  · intro cycles r hr hact lastDay hlast
    simp only [getUserCycles, List.mem_map] at hr
    obtain ⟨c, _, hc⟩ := hr
    set c2 : Cycle := { c with days := sortDaysByDayNumber c.days } with hc2
    have hact2 : c2.isActive = false := by
      have h1 : r.isActive = c2.isActive := by
        rw [← hc]
        exact (ensureCycleEndDate_fields c2).2.2.2.1
      rw [← h1, hact]
    have hdays : r.days = c2.days := by
      rw [← hc]
      exact (ensureCycleEndDate_fields c2).2.2.2.2
    have hlast2 : c2.days.getLast? = some lastDay := by
      rw [← hdays, hlast]
    rw [← hc]
    exact ensureCycleEndDate_endDate hact2 hlast2

/-- Witness for C6 on a concrete inactive cycle with one recorded day and a
stale `endDate`. -/
theorem getUserCycles_endDate_normalization_witness :
    (ensureCycleEndDate ⟨3, 1, 0, some 0, false, [⟨1, 3, 1, 86400000, none, false⟩]⟩).endDate
      = some 86400000 ∧
    ensureCycleEndDate ⟨4, 2, 0, some 0, true, []⟩ = ⟨4, 2, 0, some 0, true, []⟩ := by
  constructor
  · exact (getUserCycles_endDate_normalization.2.2.1
      ⟨3, 1, 0, some 0, false, [⟨1, 3, 1, 86400000, none, false⟩]⟩ rfl
      ⟨1, 3, 1, 86400000, none, false⟩ rfl).1
  · exact getUserCycles_endDate_normalization.1 ⟨4, 2, 0, some 0, true, []⟩ rfl

/-- C7: the day lists carried by the cycles of `getUserCycles`, by the cycle
of `getCycleById` and the day list of `getCycleDays` are all in ascending
`dayNumber` order. -/
theorem query_days_sorted :
    (∀ cycles : List Cycle, ∀ r ∈ getUserCycles cycles,
      r.days.Pairwise (fun a b => a.dayNumber ≤ b.dayNumber)) ∧
    (∀ cycles : List Cycle, ∀ cycleId : ℕ, ∀ r,
      getCycleById cycles cycleId = Except.ok r →
      r.days.Pairwise (fun a b => a.dayNumber ≤ b.dayNumber)) ∧
    (∀ cycles : List Cycle, ∀ days : List CycleDay, ∀ cycleId : ℕ, ∀ l,
      getCycleDays cycles days cycleId = Except.ok l →
      l.Pairwise (fun a b => a.dayNumber ≤ b.dayNumber)) := by
  refine ⟨?_, ?_, ?_⟩
  · intro cycles r hr
    simp only [getUserCycles, List.mem_map] at hr
    obtain ⟨c, _, hc⟩ := hr
    set c2 : Cycle := { c with days := sortDaysByDayNumber c.days } with hc2
    have hdays : r.days = c2.days := by
      rw [← hc]
      exact (ensureCycleEndDate_fields c2).2.2.2.2
    rw [hdays]
    exact sortDaysByDayNumber_sorted c.days
  · intro cycles cycleId r hr
    unfold getCycleById at hr
    cases hfind : cycles.find? (fun cycle => cycle.id == cycleId) with
    | none =>
      rw [hfind] at hr
      cases hr
    | some c =>
      rw [hfind] at hr
      rw [Except.ok.injEq] at hr
      rw [← hr]
      exact sortDaysByDayNumber_sorted c.days
  · intro cycles days cycleId l hl
    unfold getCycleDays at hl
    cases hfind : cycles.find? (fun cycle => cycle.id == cycleId) with
    | none =>
      rw [hfind] at hl
      cases hl
    | some c =>
      rw [hfind] at hl
      rw [Except.ok.injEq] at hl
      rw [← hl]
      exact sortDaysByDayNumber_sorted _

/-- Witness for C7: the day list returned for a concrete one-cycle store is
sorted. -/
theorem query_days_sorted_witness :
    ∃ l, getCycleDays [⟨9, 1, 0, none, true, []⟩] [⟨1, 9, 1, 0, some 98, false⟩] 9
        = Except.ok l ∧
      l.Pairwise (fun a b => a.dayNumber ≤ b.dayNumber) := by
  have h0 : getCycleDays [⟨9, 1, 0, none, true, []⟩] [⟨1, 9, 1, 0, some 98, false⟩] 9
      = Except.ok (sortDaysByDayNumber [⟨1, 9, 1, 0, some 98, false⟩]) := by
    rfl
  exact ⟨_, h0, query_days_sorted.2.2 _ _ 9 _ h0⟩

/-- Decimal value of a digit character. -/
def digitToNat (c : Char) : ℕ := c.toNat - '0'.toNat

/-- The number denoted by a decimal digit string, as JavaScript `Number`
reads the captured groups of `parseDateSafe`. -/
def digitsToNat (cs : List Char) : ℕ :=
  cs.foldl (fun acc c => acc * 10 + digitToNat c) 0

/-- Model of the anchored regex four year digits, a dash or slash separator, one or two month digits, another separator, one or two day digits of
`parseDateSafe` in `operations.ts`, on the character list of the trimmed
input: the captured groups as numbers, or `none` when the shape does not
match. -/
def matchIso (cs : List Char) : Option (ℕ × ℕ × ℕ) :=
  let y := cs.takeWhile Char.isDigit
  let rest := cs.dropWhile Char.isDigit
  if y.length = 4 then
    match rest with
    | [] => none
    | sep1 :: rest1 =>
      if sep1 == '-' || sep1 == '/' then
        let m := rest1.takeWhile Char.isDigit
        let rest2 := rest1.dropWhile Char.isDigit
        if 1 ≤ m.length ∧ m.length ≤ 2 then
          match rest2 with
          | [] => none
          | sep2 :: rest3 =>
            if sep2 == '-' || sep2 == '/' then
              let d := rest3.takeWhile Char.isDigit
              let rest4 := rest3.dropWhile Char.isDigit
              if (1 ≤ d.length ∧ d.length ≤ 2) ∧ rest4 = [] then
                some (digitsToNat y, digitsToNat m, digitsToNat d)
              else none
            else none
        else none
      else none
  else none

/-- Model of the anchored regex one or two digits, a slash, one or two digits, a slash, four year digits of
`parseDateSafe` in `operations.ts`. -/
def matchSlash (cs : List Char) : Option (ℕ × ℕ × ℕ) :=
  let a := cs.takeWhile Char.isDigit
  let rest := cs.dropWhile Char.isDigit
  if 1 ≤ a.length ∧ a.length ≤ 2 then
    match rest with
    | [] => none
    | sep1 :: rest1 =>
      if sep1 == '/' then
        let b := rest1.takeWhile Char.isDigit
        let rest2 := rest1.dropWhile Char.isDigit
        if 1 ≤ b.length ∧ b.length ≤ 2 then
          match rest2 with
          | [] => none
          | sep2 :: rest3 =>
            if sep2 == '/' then
              let y := rest3.takeWhile Char.isDigit
              let rest4 := rest3.dropWhile Char.isDigit
              if y.length = 4 ∧ rest4 = [] then
                some (digitsToNat a, digitsToNat b, digitsToNat y)
              else none
            else none
        else none
      else none
  else none

/-- Model of `String.prototype.trim` on the character list, for the ASCII
whitespace relevant here. -/
def trimChars (cs : List Char) : List Char :=
  ((cs.dropWhile Char.isWhitespace).reverse.dropWhile Char.isWhitespace).reverse

/-- The `(year, month, day)` arguments `parseDateSafe` hands to
`new Date(year, month - 1, day)` (with `month` still 1-based here); the host
Date normalization is outside the repository. -/
structure SimpleDate where
  year : ℕ
  month : ℕ
  day : ℕ
  deriving DecidableEq, Repr

/-- Model of `parseDateSafe` in `operations.ts` over the input string's
characters: empty or all-whitespace input gives no date, then the ISO-like
regex is tried, then the slash regex with the day/month heuristic and the
`1..12` month and `1..31` day range checks.  The final fallback of the
source delegates to the host `new Date(raw)` parser, which is outside the
repository and modelled as no parse; the two regex branches, which the
claims concern, never reach it. -/
def parseDateSafe (value : String) : Option SimpleDate :=
  if value.data = [] then none
  else
    let raw := trimChars value.data
    if raw = [] then none
    else
      match matchIso raw with
      | some (year, month, day) =>
        if 1 ≤ month ∧ month ≤ 12 ∧ 1 ≤ day ∧ day ≤ 31 then
          some ⟨year, month, day⟩
        else none
      | none =>
        match matchSlash raw with
        | some (first, second, year) =>
          let day := if 12 < first ∧ second ≤ 12 then first
            else if 12 < second ∧ first ≤ 12 then second
            else first
          let month := if 12 < first ∧ second ≤ 12 then second
            else if 12 < second ∧ first ≤ 12 then first
            else second
          if 1 ≤ month ∧ month ≤ 12 ∧ 1 ≤ day ∧ day ≤ 31 then
            some ⟨year, month, day⟩
          else none
        | none => none

/-- A digit character is not whitespace. -/
theorem digit_not_whitespace {c : Char} (h : c.isDigit = true) :
    c.isWhitespace = false := by
  by_contra hw
  simp only [Bool.not_eq_false] at hw
  simp only [Char.isWhitespace, Bool.or_eq_true, decide_eq_true_eq] at hw
  rcases hw with ((h1 | h1) | h1) | h1 <;> subst h1 <;> exact absurd h (by decide)

/-- `takeWhile` and `dropWhile` split a list of satisfying characters at the
first failing one. -/
theorem takeWhile_dropWhile_append {p : Char → Bool} :
    ∀ (l1 : List Char) (x : Char) (l2 : List Char),
      (∀ c ∈ l1, p c = true) → p x = false →
      (l1 ++ x :: l2).takeWhile p = l1 ∧ (l1 ++ x :: l2).dropWhile p = x :: l2 := by
  intro l1
  induction l1 with
  | nil =>
    intro x l2 _ hx
    simp [List.takeWhile_cons, List.dropWhile_cons, hx]
  | cons c t ih =>
    intro x l2 hall hx
    have hc : p c = true := hall c (by simp)
    have ht : ∀ d ∈ t, p d = true := fun d hd => hall d (by simp [hd])
    have := ih x l2 ht hx
    simp [List.takeWhile_cons, List.dropWhile_cons, hc, this.1, this.2]

/-- `takeWhile` and `dropWhile` on a list of satisfying characters. -/
theorem takeWhile_dropWhile_all {p : Char → Bool} :
    ∀ {l : List Char}, (∀ c ∈ l, p c = true) →
      l.takeWhile p = l ∧ l.dropWhile p = [] := by
  intro l
  induction l with
  | nil => intro _; simp
  | cons c t ih =>
    intro hall
    have hc : p c = true := hall c (by simp)
    have ht := ih (fun d hd => hall d (by simp [hd]))
    simp [List.takeWhile_cons, List.dropWhile_cons, hc, ht.1, ht.2]

/-- `dropWhile` is the identity when the head does not satisfy the
predicate. -/
theorem dropWhile_eq_self_of_head {p : Char → Bool} {l : List Char}
    (h : ∀ x, l.head? = some x → p x = false) : l.dropWhile p = l := by
  cases l with
  | nil => rfl
  | cons c t =>
    have hc : p c = false := h c rfl
    simp [List.dropWhile_cons, hc]

/-- Trimming does not change a list whose first and last characters are not
whitespace. -/
theorem trimChars_eq_self {l : List Char}
    (h1 : ∀ x, l.head? = some x → x.isWhitespace = false)
    (h2 : ∀ x, l.getLast? = some x → x.isWhitespace = false) :
    trimChars l = l := by
  unfold trimChars
  rw [dropWhile_eq_self_of_head h1]
  rw [dropWhile_eq_self_of_head (fun x hx => h2 x (by rwa [List.head?_reverse] at hx))]
  exact List.reverse_reverse l

/-- The last element of a list is a member. -/
theorem mem_of_getLast?_chars {l : List Char} {x : Char}
    (h : l.getLast? = some x) : x ∈ l := by
  cases l with
  | nil => cases h
  | cons a t =>
    have hne : a :: t ≠ [] := by simp
    rw [List.getLast?_eq_getLast _ hne] at h
    have hx : (a :: t).getLast hne = x := Option.some.inj h
    rw [← hx]
    exact List.getLast_mem hne

/-- The last element of an appended nonempty digit block. -/
theorem getLast?_append_right_chars {l1 l2 : List Char} (h : l2 ≠ []) :
    (l1 ++ l2).getLast? = l2.getLast? := by
  rw [List.getLast?_append]
  cases hl : l2.getLast? with
  | none => exact absurd (List.getLast?_eq_none_iff.mp hl) h
  | some x => rfl

/-- The head of a digit block followed by anything is not whitespace. -/
theorem head?_append_digits {l rest : List Char} (hl : ∀ c ∈ l, c.isDigit = true)
    (hne : l ≠ []) :
    ∀ x, (l ++ rest).head? = some x → x.isWhitespace = false := by
  cases l with
  | nil => exact absurd rfl hne
  | cons c t =>
    intro x hx
    simp only [List.cons_append, List.head?_cons, Option.some.injEq] at hx
    rw [← hx]
    exact digit_not_whitespace (hl c (by simp))

/-- The last character of the two matched date shapes is a digit of the last
block. -/
theorem getLast?_date_shape {a b y : List Char} {s1 s2 : Char} (hyne : y ≠ []) :
    (a ++ s1 :: (b ++ s2 :: y)).getLast? = y.getLast? := by
  rw [getLast?_append_right_chars (by simp : s1 :: (b ++ s2 :: y) ≠ [])]
  rw [show s1 :: (b ++ s2 :: y) = [s1] ++ (b ++ s2 :: y) from rfl]
  rw [getLast?_append_right_chars (by cases b <;> simp : b ++ s2 :: y ≠ [])]
  rw [getLast?_append_right_chars (by simp : s2 :: y ≠ [])]
  rw [show s2 :: y = [s2] ++ y from rfl]
  rw [getLast?_append_right_chars hyne]

/-- `matchIso` on an input of the ISO shape. -/
theorem matchIso_eval {y m d : List Char} {sep : Char} (hsep : sep = '-' ∨ sep = '/')
    (hy : ∀ c ∈ y, c.isDigit = true) (hylen : y.length = 4)
    (hm : ∀ c ∈ m, c.isDigit = true) (hm1 : 1 ≤ m.length) (hm2 : m.length ≤ 2)
    (hd : ∀ c ∈ d, c.isDigit = true) (hd1 : 1 ≤ d.length) (hd2 : d.length ≤ 2) :
    matchIso (y ++ sep :: (m ++ sep :: d))
      = some (digitsToNat y, digitsToNat m, digitsToNat d) := by
  have hsepd : sep.isDigit = false := by
    rcases hsep with h | h <;> subst h <;> decide
  have hsepb : (sep == '-' || sep == '/') = true := by
    rcases hsep with h | h <;> subst h <;> rfl
  have hsplit1 := takeWhile_dropWhile_append y sep (m ++ sep :: d) hy hsepd
  have hsplit2 := takeWhile_dropWhile_append m sep d hm hsepd
  have hsplit3 := takeWhile_dropWhile_all hd
  simp only [matchIso]
  rw [hsplit1.1, hsplit1.2, hylen]
  rw [if_pos rfl]
  dsimp only
  rw [hsepb]
  rw [if_pos rfl]
  rw [hsplit2.1, hsplit2.2]
  rw [if_pos ⟨hm1, hm2⟩]
  dsimp only
  rw [hsepb]
  rw [if_pos rfl]
  rw [hsplit3.1, hsplit3.2]
  rw [if_pos ⟨⟨hd1, hd2⟩, rfl⟩]

/-- `matchIso` rejects the two-digit-first slash shape. -/
theorem matchIso_slash_shape {a rest : List Char} (ha : ∀ c ∈ a, c.isDigit = true)
    (ha2 : a.length ≤ 2) :
    matchIso (a ++ '/' :: rest) = none := by
  have hsepd : ('/' : Char).isDigit = false := by decide
  have hsplit := takeWhile_dropWhile_append a '/' rest ha hsepd
  simp only [matchIso]
  rw [hsplit.1]
  rw [if_neg (by omega : ¬a.length = 4)]

/-- `matchSlash` on an input of the slash shape. -/
theorem matchSlash_eval {a b y : List Char}
    (ha : ∀ c ∈ a, c.isDigit = true) (ha1 : 1 ≤ a.length) (ha2 : a.length ≤ 2)
    (hb : ∀ c ∈ b, c.isDigit = true) (hb1 : 1 ≤ b.length) (hb2 : b.length ≤ 2)
    (hy : ∀ c ∈ y, c.isDigit = true) (hylen : y.length = 4) :
    matchSlash (a ++ '/' :: (b ++ '/' :: y))
      = some (digitsToNat a, digitsToNat b, digitsToNat y) := by
  have hsepd : ('/' : Char).isDigit = false := by decide
  have hsplit1 := takeWhile_dropWhile_append a '/' (b ++ '/' :: y) ha hsepd
  have hsplit2 := takeWhile_dropWhile_append b '/' y hb hsepd
  have hsplit3 := takeWhile_dropWhile_all hy
  simp only [matchSlash]
  rw [hsplit1.1, hsplit1.2]
  rw [if_pos ⟨ha1, ha2⟩]
  dsimp only
  simp only [beq_self_eq_true]
  rw [if_pos trivial]
  rw [hsplit2.1, hsplit2.2]
  rw [if_pos ⟨hb1, hb2⟩]
  dsimp only
  simp only [beq_self_eq_true]
  rw [if_pos trivial]
  rw [hsplit3.1, hsplit3.2]
  rw [if_pos ⟨hylen, rfl⟩]

/-- C4: on a slash date with two 1-2 digit numbers and a 4-digit year,
`parseDateSafe` takes the first number as the day when it exceeds 12 and the
second does not, the second as the day when it exceeds 12 and the first does
not, and defaults to day-first otherwise, returning a date exactly when the
resolved month lies in 1..12 and the resolved day in 1..31; an ISO-like
date (4-digit year, then month, then day, separated by a dash or slash) is
read as year, month, day under the same range check. -/
theorem parseDateSafe_spec :
    (∀ a b y : List Char,
      (∀ c ∈ a, c.isDigit = true) → 1 ≤ a.length → a.length ≤ 2 →
      (∀ c ∈ b, c.isDigit = true) → 1 ≤ b.length → b.length ≤ 2 →
      (∀ c ∈ y, c.isDigit = true) → y.length = 4 →
      parseDateSafe (String.mk (a ++ '/' :: (b ++ '/' :: y)))
        = (let first := digitsToNat a
           let second := digitsToNat b
           let day := if 12 < first ∧ second ≤ 12 then first
             else if 12 < second ∧ first ≤ 12 then second
             else first
           let month := if 12 < first ∧ second ≤ 12 then second
             else if 12 < second ∧ first ≤ 12 then first
             else second
           if 1 ≤ month ∧ month ≤ 12 ∧ 1 ≤ day ∧ day ≤ 31 then
             some ⟨digitsToNat y, month, day⟩
           else none)) ∧
    (∀ (y m d : List Char) (sep : Char), (sep = '-' ∨ sep = '/') →
      (∀ c ∈ y, c.isDigit = true) → y.length = 4 →
      (∀ c ∈ m, c.isDigit = true) → 1 ≤ m.length → m.length ≤ 2 →
      (∀ c ∈ d, c.isDigit = true) → 1 ≤ d.length → d.length ≤ 2 →
      parseDateSafe (String.mk (y ++ sep :: (m ++ sep :: d)))
        = if 1 ≤ digitsToNat m ∧ digitsToNat m ≤ 12 ∧
              1 ≤ digitsToNat d ∧ digitsToNat d ≤ 31 then
            some ⟨digitsToNat y, digitsToNat m, digitsToNat d⟩
          else none) := by
  constructor
  · intro a b y ha ha1 ha2 hb hb1 hb2 hy hylen
    have hane : a ≠ [] := by
      intro h
      rw [h] at ha1
      simp at ha1
    have hyne : y ≠ [] := by
      intro h
      rw [h] at hylen
      simp at hylen
    have hcsne : a ++ '/' :: (b ++ '/' :: y) ≠ [] := by
      cases a <;> simp
    have htrim : trimChars (a ++ '/' :: (b ++ '/' :: y)) = a ++ '/' :: (b ++ '/' :: y) := by
      refine trimChars_eq_self (head?_append_digits ha hane) ?_
      intro x hx
      rw [getLast?_date_shape hyne] at hx
      exact digit_not_whitespace (hy x (mem_of_getLast?_chars hx))
    simp only [parseDateSafe]
    rw [if_neg hcsne, htrim, if_neg hcsne]
    rw [matchIso_slash_shape ha ha2]
    dsimp only
    rw [matchSlash_eval ha ha1 ha2 hb hb1 hb2 hy hylen]
  · intro y m d sep hsep hy hylen hm hm1 hm2 hd hd1 hd2
    have hyne : y ≠ [] := by
      intro h
      rw [h] at hylen
      simp at hylen
    have hdne : d ≠ [] := by
      intro h
      rw [h] at hd1
      simp at hd1
    have hcsne : y ++ sep :: (m ++ sep :: d) ≠ [] := by
      cases y <;> simp
    have htrim : trimChars (y ++ sep :: (m ++ sep :: d)) = y ++ sep :: (m ++ sep :: d) := by
      refine trimChars_eq_self (head?_append_digits hy hyne) ?_
      intro x hx
      rw [getLast?_date_shape hdne] at hx
      exact digit_not_whitespace (hd x (mem_of_getLast?_chars hx))
    simp only [parseDateSafe]
    rw [if_neg hcsne, htrim, if_neg hcsne]
    rw [matchIso_eval hsep hy hylen hm hm1 hm2 hd hd1 hd2]

/-- Witness for C4 at the concrete strings "20/09/2025" (day-first resolved
by the heuristic) and "2025-09-20" (ISO-like). -/
theorem parseDateSafe_spec_witness :
    parseDateSafe (String.mk (['2', '0'] ++ '/' :: (['0', '9'] ++ '/' :: ['2', '0', '2', '5'])))
      = some ⟨2025, 9, 20⟩ ∧
    parseDateSafe (String.mk (['2', '0', '2', '5'] ++ '-' :: (['0', '9'] ++ '-' :: ['2', '0'])))
      = some ⟨2025, 9, 20⟩ := by
  constructor
  · have h := parseDateSafe_spec.1 ['2', '0'] ['0', '9'] ['2', '0', '2', '5']
      (by decide) (by decide) (by decide) (by decide) (by decide) (by decide)
      (by decide) (by decide)
    rw [h]
    decide
  · have h := parseDateSafe_spec.2 ['2', '0', '2', '5'] ['0', '9'] ['2', '0'] '-'
      (Or.inl rfl) (by decide) (by decide) (by decide) (by decide) (by decide)
      (by decide) (by decide) (by decide)
    rw [h]
    decide

end CyclePath
